import Mathlib

/-!
Verification of the dye-combination optimization pipeline.

The program under study enumerates a discretized 6-component simplex of
dye volume fractions, builds a per-wavelength response model, and scores
every composition against a solar-irradiance reference spectrum with three
metrics (Pearson correlation, trapezoidal integral, sample covariance),
finally selecting the arg-max composition per metric.

Grid values produced by np.linspace(0, 1, N) are modelled as exact
rationals i/(N-1); the spectral and statistical computations are modelled
over the reals, with numpy and scipy library calls embedded by their
mathematical definitions (trapezoid rule, sample covariance with one
degree of freedom subtracted, Pearson correlation).
-/

namespace DSSC

/-- Six-component tuple: one candidate mixture (or one meshgrid index). -/
abbrev Tuple6 (α : Type) := α × α × α × α × α × α

/-- Model of np.linspace(0, 1, N): the uniform N-point grid on [0,1],
value i/(N-1) at position i. -/
def linspace (N : Nat) : List ℚ :=
  (List.range N).map fun i : Nat => (i : ℚ) / ((N : ℚ) - 1)

/-- Index space of the 6-D meshgrid, flattened in C (row-major) order:
the first axis varies slowest, matching boolean-mask flattening of
arrays produced by np.meshgrid(..., indexing = ij). -/
def indexTuples (N : Nat) : List (Tuple6 Nat) :=
  (List.range N).flatMap fun i1 =>
  (List.range N).flatMap fun i2 =>
  (List.range N).flatMap fun i3 =>
  (List.range N).flatMap fun i4 =>
  (List.range N).flatMap fun i5 =>
  (List.range N).map fun i6 => (i1, i2, i3, i4, i5, i6)

/-- Value of the array Sum = v1 + v2 + v3 + v4 + v5 + v6 at one meshgrid
index: vk at index (i1, ..., i6) holds v[ik]. -/
def gridSum (v : List ℚ) : Tuple6 Nat → ℚ
  | (i1, i2, i3, i4, i5, i6) =>
      v.getD i1 0 + v.getD i2 0 + v.getD i3 0 + v.getD i4 0 + v.getD i5 0 + v.getD i6 0

/-- Value of the boolean array condition = (Sum == 1) at one meshgrid index. -/
def condition (v : List ℚ) (t : Tuple6 Nat) : Bool :=
  decide (gridSum v t = 1)

/-- Values of the six meshgrid arrays v1..v6 at one index. -/
def valTuple (v : List ℚ) : Tuple6 Nat → Tuple6 ℚ
  | (i1, i2, i3, i4, i5, i6) =>
      (v.getD i1 0, v.getD i2 0, v.getD i3 0, v.getD i4 0, v.getD i5 0, v.getD i6 0)

/-- The retained compositions V1..V6 = vk[condition], zipped positionally:
the list the scoring loop iterates over, in C flattening order. -/
def compositionGrid (v : List ℚ) (N : Nat) : List (Tuple6 ℚ) :=
  ((indexTuples N).filter (condition v)).map (valTuple v)

/-- Sum of the six components of a composition. -/
def sum6 : Tuple6 ℚ → ℚ
  | (a, b, c, d, e, f) => a + b + c + d + e + f

/-- Spec-side definition: the 6-fold Cartesian product of the grid with
itself as nested loops, first coordinate outermost (slowest). -/
def cartesianProduct6 (v : List ℚ) : List (Tuple6 ℚ) :=
  v.flatMap fun a => v.flatMap fun b => v.flatMap fun c => v.flatMap fun d => v.flatMap fun e =>
  v.map fun f => (a, b, c, d, e, f)

/-- Sum of the six indices of a meshgrid index tuple. -/
def natSum6 : Tuple6 Nat → Nat
  | (i1, i2, i3, i4, i5, i6) => i1 + i2 + i3 + i4 + i5 + i6

/-- One-level Cartesian product layer: every grid value paired with every
element of the inner list, inner list fastest. -/
def prodLayer {β : Type} (v : List ℚ) (inner : List β) : List (ℚ × β) :=
  v.flatMap fun a => inner.map fun t => (a, t)

/-- Towers of Cartesian products of the grid with itself, built one layer
at a time; the six-layer tower is the 6-fold product. -/
def prod2 (v : List ℚ) : List (ℚ × ℚ) := prodLayer v v

/-- Three-fold product tower. -/
def prod3 (v : List ℚ) : List (ℚ × ℚ × ℚ) := prodLayer v (prod2 v)

/-- Four-fold product tower. -/
def prod4 (v : List ℚ) : List (ℚ × ℚ × ℚ × ℚ) := prodLayer v (prod3 v)

/-- Five-fold product tower. -/
def prod5 (v : List ℚ) : List (ℚ × ℚ × ℚ × ℚ × ℚ) := prodLayer v (prod4 v)

/-- Six-fold product tower. -/
def prod6 (v : List ℚ) : List (Tuple6 ℚ) := prodLayer v (prod5 v)

/-- Lexicographic combination of an order on the first component with an
order on the rest. -/
def lexPair {α β : Type} (RA : α → α → Prop) (RB : β → β → Prop) (p q : α × β) : Prop :=
  RA p.1 q.1 ∨ (p.1 = q.1 ∧ RB p.2 q.2)

instance lexPair.instDecidable {α β : Type} (RA : α → α → Prop) (RB : β → β → Prop)
    [DecidableEq α] [DecidableRel RA] [DecidableRel RB] :
    DecidableRel (lexPair RA RB) := fun p q =>
  inferInstanceAs (Decidable (RA p.1 q.1 ∨ (p.1 = q.1 ∧ RB p.2 q.2)))

/-- Strict lexicographic order on 6-tuples of rationals. -/
def lex6 : Tuple6 ℚ → Tuple6 ℚ → Prop :=
  lexPair (· < ·) (lexPair (· < ·) (lexPair (· < ·) (lexPair (· < ·) (lexPair (· < ·) (· < ·)))))

/-- Model of scipy.integrate.trapezoid(y, x): the trapezoid rule over
consecutive sample pairs. -/
def trapezoid {K : Type} [Field K] : List K → List K → K
  | y1 :: y2 :: ys, x1 :: x2 :: xs => (x2 - x1) * (y1 + y2) / 2 + trapezoid (y2 :: ys) (x2 :: xs)
  | _, _ => 0

/-- Model of normal_spectrum = spectrum_regression(wavelength) / spectrum_integral:
the regression values divided by their trapezoidal integral over the
wavelength grid. -/
def normal_spectrum {K : Type} [Field K] (ys xs : List K) : List K :=
  ys.map fun y => y / trapezoid ys xs

/-- Arithmetic mean of a list of reals. -/
noncomputable def mean (l : List ℝ) : ℝ := l.sum / l.length

/-- List with its mean subtracted from every entry. -/
noncomputable def centered (l : List ℝ) : List ℝ := l.map fun x => x - mean l

/-- Sum of products of centered entries: the common numerator of
covariance and correlation. -/
noncomputable def covSum (x y : List ℝ) : ℝ :=
  (List.zipWith (· * ·) (centered x) (centered y)).sum

/-- Sample covariance with one degree of freedom subtracted, the scalar
np.cov uses in each entry of its output matrix. -/
noncomputable def sampleCov (x y : List ℝ) : ℝ :=
  covSum x y / ((x.length : ℝ) - 1)

/-- Model of np.cov(x, y): the 2x2 sample covariance matrix. -/
noncomputable def npCov (x y : List ℝ) : Fin 2 → Fin 2 → ℝ
  | 0, 0 => sampleCov x x
  | 0, 1 => sampleCov x y
  | 1, 0 => sampleCov y x
  | 1, 1 => sampleCov y y

/-- Model of scipy.stats.pearsonr(x, y)[0]: the Pearson product-moment
correlation coefficient. -/
noncomputable def pearson (x y : List ℝ) : ℝ :=
  covSum x y / Real.sqrt (covSum x x * covSum y y)

/-- One per-wavelength RBF interpolant: an abstract function from the six
volume fractions to a predicted absorbance (the fitted scipy.interpolate.Rbf
object, whose weights depend on empirical data external to the program). -/
abbrev Interpolant := ℝ → ℝ → ℝ → ℝ → ℝ → ℝ → ℝ

/-- Model of F(I1..I6): evaluate every per-wavelength interpolant in order
and convert each absorbance to a light-harvesting efficiency through
LHE = 1 - 10 ^ (-Abs). -/
noncomputable def F (RBF : List Interpolant) (I1 I2 I3 I4 I5 I6 : ℝ) : List ℝ :=
  RBF.map fun rbf => 1 - (10 : ℝ) ^ (-(rbf I1 I2 I3 I4 I5 I6))

/-- The correlation accumulation loop: one Pearson score per composition,
against the raw regression values spectrum_regression(wavelength), in
enumeration order.  The composition type is abstract since the score only
depends on the LHE spectrum the response model assigns to it. -/
noncomputable def correlationSeq {α : Type} (regVals : List ℝ) (lheOf : α → List ℝ)
    (comps : List α) : List ℝ :=
  comps.map fun f => pearson regVals (lheOf f)

/-- The integral accumulation loop: trapezoidal integral of the LHE
spectrum over the wavelength grid, one scalar per composition. -/
noncomputable def integralSeq {α : Type} (ws : List ℝ) (lheOf : α → List ℝ)
    (comps : List α) : List ℝ :=
  comps.map fun f => trapezoid (lheOf f) ws

/-- The covariance accumulation loop: entry [0,1] of np.cov applied to the
raw regression values and the LHE spectrum, one scalar per composition. -/
noncomputable def covarianceSeq {α : Type} (regVals : List ℝ) (lheOf : α → List ℝ)
    (comps : List α) : List ℝ :=
  comps.map fun f => npCov regVals (lheOf f) 0 1

/-- Model of python max(scores): none on the empty list (where max raises
ValueError), otherwise the greatest element. -/
def pyMax {α : Type} [LinearOrder α] : List α → Option α
  | [] => none
  | x :: xs => some (xs.foldl max x)

/-- Indices at which the score list attains the value m: the single index
array np.where(scores == m) returns for a 1-D input. -/
def argmaxIndices {α : Type} [DecidableEq α] (l : List α) (m : α) : List Nat :=
  (l.enum.filter fun p => decide (p.2 = m)).map Prod.fst

/-- Model of python int(arr) on an index array: succeeds only when the
array has exactly one element, raises TypeError otherwise. -/
def pyInt : List Nat → Option Nat
  | [i] => some i
  | _ => none

/-- Observable outcome of the per-metric answer block. -/
inductive SelectionResult where
  | reportedTies : List (List Nat) → SelectionResult
  | single : Nat → SelectionResult
  | error : SelectionResult
  deriving DecidableEq

/-- Model of the answer block run after each metric loop:
answer = list(np.where(scores == max(scores))); if len(answer) > 1 the
tie message is printed (ties reported); otherwise int(answer[0]) is
taken as the single best-fit index.  max on an empty list and int on an
index array that is not of size one both raise, modelled as error. -/
def selection {α : Type} [LinearOrder α] (scores : List α) : SelectionResult :=
  match pyMax scores with
  | none => SelectionResult.error
  | some m =>
    let answer := [argmaxIndices scores m]
    if 1 < answer.length then SelectionResult.reportedTies answer
    else
      match pyInt (answer.getD 0 []) with
      | some i => SelectionResult.single i
      | none => SelectionResult.error

/-! ## Helper lemmas -/

theorem linspace_length (N : Nat) : (linspace N).length = N := by
  rw [linspace, List.length_map, List.length_range]

theorem linspace_getD_lt {N i : Nat} (h : i < N) :
    (linspace N).getD i 0 = (i : ℚ) / ((N : ℚ) - 1) := by
  rw [linspace, List.getD_eq_getElem?_getD, List.getElem?_map, List.getElem?_range h]
  rfl

theorem linspace_getD_ge {N i : Nat} (h : N ≤ i) : (linspace N).getD i 0 = 0 := by
  apply List.getD_eq_default
  simpa [linspace_length] using h

theorem sum6_valTuple (v : List ℚ) (t : Tuple6 Nat) :
    sum6 (valTuple v t) = gridSum v t := by
  obtain ⟨i1, i2, i3, i4, i5, i6⟩ := t
  rfl

theorem mem_indexTuples_lt {N : Nat} {t : Tuple6 Nat} (ht : t ∈ indexTuples N) :
    t.1 < N ∧ t.2.1 < N ∧ t.2.2.1 < N ∧ t.2.2.2.1 < N ∧ t.2.2.2.2.1 < N ∧ t.2.2.2.2.2 < N := by
  obtain ⟨i1, i2, i3, i4, i5, i6⟩ := t
  simp only [indexTuples, List.mem_flatMap, List.mem_map, List.mem_range] at ht
  obtain ⟨j1, h1, j2, h2, j3, h3, j4, h4, j5, h5, j6, h6, heq⟩ := ht
  obtain ⟨rfl, rfl, rfl, rfl, rfl, rfl⟩ := Prod.mk.injEq .. ▸ heq
  exact ⟨h1, h2, h3, h4, h5, h6⟩

theorem condition_linspace {N : Nat} (hN : 2 ≤ N) {t : Tuple6 Nat}
    (ht : t ∈ indexTuples N) :
    condition (linspace N) t = decide (natSum6 t = N - 1) := by
  obtain ⟨l1, l2, l3, l4, l5, l6⟩ := mem_indexTuples_lt ht
  obtain ⟨i1, i2, i3, i4, i5, i6⟩ := t
  have hd : ((N : ℚ) - 1) ≠ 0 := by
    have : (2 : ℚ) ≤ (N : ℚ) := by exact_mod_cast hN
    linarith
  rw [condition, decide_eq_decide]
  rw [gridSum, linspace_getD_lt l1, linspace_getD_lt l2, linspace_getD_lt l3,
    linspace_getD_lt l4, linspace_getD_lt l5, linspace_getD_lt l6]
  rw [div_add_div_same, div_add_div_same, div_add_div_same, div_add_div_same,
    div_add_div_same, div_eq_one_iff_eq hd]
  rw [natSum6]
  constructor
  · intro h
    have : ((i1 + i2 + i3 + i4 + i5 + i6 : Nat) : ℚ) = ((N - 1 : Nat) : ℚ) := by
      push_cast [Nat.cast_sub (by omega : 1 ≤ N)]
      push_cast at h
      linarith
    exact_mod_cast this
  · intro h
    have : ((i1 + i2 + i3 + i4 + i5 + i6 : Nat) : ℚ) = ((N - 1 : Nat) : ℚ) := by
      exact_mod_cast h
    push_cast [Nat.cast_sub (by omega : 1 ≤ N)] at this
    push_cast
    linarith

theorem filter_condition_linspace {N : Nat} (hN : 2 ≤ N) :
    (indexTuples N).filter (condition (linspace N)) =
      (indexTuples N).filter fun t => decide (natSum6 t = N - 1) :=
  List.filter_congr fun _ ht => condition_linspace hN ht

/-! ## Claim theorems -/

/-- C4: the composition enumerator retains exactly 6 compositions for
N = 2 (grid [0,1], the six unit vectors) and exactly 21 for N = 3
(grid [0, 1/2, 1]). -/
theorem compositionGrid_count_N2_N3 :
    (compositionGrid (linspace 2) 2).length = 6 ∧
    (compositionGrid (linspace 3) 3).length = 21 := by
  constructor
  · rw [compositionGrid, List.length_map, filter_condition_linspace (by norm_num)]
    decide
  · rw [compositionGrid, List.length_map, filter_condition_linspace (by norm_num)]
    decide

theorem linspace_getD_bounds {N i : Nat} (hN : 2 ≤ N) :
    0 ≤ (linspace N).getD i 0 ∧ (linspace N).getD i 0 ≤ 1 := by
  have hd : (0 : ℚ) < (N : ℚ) - 1 := by
    have : (2 : ℚ) ≤ (N : ℚ) := by exact_mod_cast hN
    linarith
  rcases lt_or_le i N with h | h
  · rw [linspace_getD_lt h]
    constructor
    · positivity
    · rw [div_le_one hd]
      have hi : (i : ℚ) ≤ (N : ℚ) - 1 := by
        have : ((i : ℚ)) + 1 ≤ (N : ℚ) := by exact_mod_cast h
        linarith
      exact hi
  · rw [linspace_getD_ge h]
    norm_num

/-- C5: every composition retained by the enumerator has all six
components in [0,1] and components summing exactly to 1 (hence within
any tolerance). -/
theorem compositionGrid_mem_bounds_sum (N : Nat) (hN : 2 ≤ N) (t : Tuple6 ℚ)
    (ht : t ∈ compositionGrid (linspace N) N) :
    (0 ≤ t.1 ∧ t.1 ≤ 1) ∧ (0 ≤ t.2.1 ∧ t.2.1 ≤ 1) ∧ (0 ≤ t.2.2.1 ∧ t.2.2.1 ≤ 1) ∧
    (0 ≤ t.2.2.2.1 ∧ t.2.2.2.1 ≤ 1) ∧ (0 ≤ t.2.2.2.2.1 ∧ t.2.2.2.2.1 ≤ 1) ∧
    (0 ≤ t.2.2.2.2.2 ∧ t.2.2.2.2.2 ≤ 1) ∧ sum6 t = 1 := by
  rw [compositionGrid, List.mem_map] at ht
  obtain ⟨s, hs, rfl⟩ := ht
  rw [List.mem_filter] at hs
  obtain ⟨_, hcond⟩ := hs
  have hsum : sum6 (valTuple (linspace N) s) = 1 := by
    rw [sum6_valTuple]
    exact of_decide_eq_true hcond
  obtain ⟨i1, i2, i3, i4, i5, i6⟩ := s
  exact ⟨linspace_getD_bounds hN, linspace_getD_bounds hN, linspace_getD_bounds hN,
    linspace_getD_bounds hN, linspace_getD_bounds hN, linspace_getD_bounds hN, hsum⟩

theorem compositionGrid_two :
    compositionGrid (linspace 2) 2 =
      [(0, 0, 0, 0, 0, 1), (0, 0, 0, 0, 1, 0), (0, 0, 0, 1, 0, 0),
       (0, 0, 1, 0, 0, 0), (0, 1, 0, 0, 0, 0), (1, 0, 0, 0, 0, 0)] := by
  rw [compositionGrid, filter_condition_linspace (by norm_num)]
  have hfilter : (indexTuples 2).filter (fun t => decide (natSum6 t = 2 - 1)) =
      [(0, 0, 0, 0, 0, 1), (0, 0, 0, 0, 1, 0), (0, 0, 0, 1, 0, 0),
       (0, 0, 1, 0, 0, 0), (0, 1, 0, 0, 0, 0), (1, 0, 0, 0, 0, 0)] := by
    decide
  rw [hfilter]
  have h0 : (linspace 2).getD 0 0 = 0 := by
    rw [linspace_getD_lt (by norm_num)]; norm_num
  have h1 : (linspace 2).getD 1 0 = 1 := by
    rw [linspace_getD_lt (by norm_num)]; norm_num
  simp only [List.map_cons, List.map_nil, valTuple]
  rw [h0, h1]

/-- C5 witness: for N = 2 the unit vector (1,0,0,0,0,0) is in the grid
and satisfies the bounds and the exact unit sum. -/
theorem compositionGrid_mem_bounds_sum_witness :
    2 ≤ 2 ∧ ((1 : ℚ), (0 : ℚ), (0 : ℚ), (0 : ℚ), (0 : ℚ), (0 : ℚ)) ∈ compositionGrid (linspace 2) 2 ∧
    ((0 ≤ (1 : ℚ) ∧ (1 : ℚ) ≤ 1) ∧ (0 ≤ (0 : ℚ) ∧ (0 : ℚ) ≤ 1) ∧ (0 ≤ (0 : ℚ) ∧ (0 : ℚ) ≤ 1) ∧
     (0 ≤ (0 : ℚ) ∧ (0 : ℚ) ≤ 1) ∧ (0 ≤ (0 : ℚ) ∧ (0 : ℚ) ≤ 1) ∧
     (0 ≤ (0 : ℚ) ∧ (0 : ℚ) ≤ 1) ∧ sum6 (1, 0, 0, 0, 0, 0) = 1) := by
  refine ⟨le_refl 2, ?_, ?_⟩
  · rw [compositionGrid_two]
    simp
  · exact compositionGrid_mem_bounds_sum 2 (le_refl 2) (1, 0, 0, 0, 0, 0)
      (by rw [compositionGrid_two]; simp)

theorem map_getD_range (v : List ℚ) :
    (List.range v.length).map (fun i => v.getD i 0) = v := by
  apply List.ext_getElem
  · simp
  · intro i h1 h2
    simp [List.getD_eq_getElem?_getD, List.getElem?_eq_getElem h2]

theorem indexTuples_map_valTuple (v : List ℚ) :
    (indexTuples v.length).map (valTuple v) = cartesianProduct6 v := by
  conv_rhs =>
    rw [show cartesianProduct6 v = cartesianProduct6 ((List.range v.length).map fun i => v.getD i 0) by
      rw [map_getD_range]]
  simp only [indexTuples, cartesianProduct6, List.map_flatMap, List.flatMap_map,
    List.map_map, Function.comp_def, valTuple]

theorem compositionGrid_eq_product_filter (v : List ℚ) :
    compositionGrid v v.length =
      (cartesianProduct6 v).filter fun t => decide (sum6 t = 1) := by
  have hpred : condition v = (fun t => decide (sum6 t = 1)) ∘ valTuple v := by
    funext t
    rw [Function.comp_apply, condition, sum6_valTuple]
  rw [compositionGrid, hpred, ← List.filter_map, indexTuples_map_valTuple]

theorem pairwise_prodLayer {β : Type} {RB : β → β → Prop} {v : List ℚ}
    (hv : v.Pairwise (· < ·)) {inner : List β} (hinner : inner.Pairwise RB) :
    (prodLayer v inner).Pairwise (lexPair (· < ·) RB) := by
  induction v with
  | nil => simp [prodLayer]
  | cons a v ih =>
    rw [prodLayer, List.flatMap_cons, List.pairwise_append]
    refine ⟨?_, ?_, ?_⟩
    · exact hinner.map _ fun s t hst => Or.inr ⟨rfl, hst⟩
    · exact ih (List.Pairwise.of_cons hv)
    · intro x hx y hy
      rw [List.mem_map] at hx
      obtain ⟨s, _, rfl⟩ := hx
      rw [List.mem_flatMap] at hy
      obtain ⟨b, hb, hy⟩ := hy
      rw [List.mem_map] at hy
      obtain ⟨t, _, rfl⟩ := hy
      exact Or.inl (List.rel_of_pairwise_cons hv hb)

theorem prod6_eq_cartesianProduct6 (v : List ℚ) : prod6 v = cartesianProduct6 v := by
  simp only [prod6, prod5, prod4, prod3, prod2, prodLayer, cartesianProduct6,
    List.map_flatMap, List.map_map, Function.comp_def]

theorem pairwise_cartesianProduct6 {v : List ℚ} (hv : v.Pairwise (· < ·)) :
    (cartesianProduct6 v).Pairwise lex6 := by
  rw [← prod6_eq_cartesianProduct6]
  exact pairwise_prodLayer hv (pairwise_prodLayer hv (pairwise_prodLayer hv
    (pairwise_prodLayer hv (pairwise_prodLayer hv hv))))

theorem pairwise_linspace {N : Nat} (hN : 2 ≤ N) : (linspace N).Pairwise (· < ·) := by
  have hd : (0 : ℚ) < (N : ℚ) - 1 := by
    have : (2 : ℚ) ≤ (N : ℚ) := by exact_mod_cast hN
    linarith
  rw [linspace]
  refine (List.pairwise_lt_range N).map _ fun i j hij => ?_
  rw [div_lt_div_iff_of_pos_right hd]
  exact_mod_cast hij

/-- C3: for every grid resolution at least 2, the enumerated composition
list is exactly the 6-fold Cartesian product of the one-dimensional grid
filtered by exact sum-to-one equality, flattened in the meshgrid C order
(first axis slowest), which is strict lexicographic order on the tuples:
in particular the output is not sorted by any score. -/
theorem compositionGrid_eq_lex_product_filter (N : Nat) (hN : 2 ≤ N) :
    compositionGrid (linspace N) N =
      ((cartesianProduct6 (linspace N)).filter fun t => decide (sum6 t = 1)) ∧
    (compositionGrid (linspace N) N).Pairwise lex6 := by
  have hgen : ∀ v : List ℚ, v.length = N →
      compositionGrid v N = (cartesianProduct6 v).filter fun t => decide (sum6 t = 1) := by
    intro v hv
    rw [← hv]
    exact compositionGrid_eq_product_filter v
  have hmain := hgen (linspace N) (linspace_length N)
  refine ⟨hmain, ?_⟩
  rw [hmain]
  exact (pairwise_cartesianProduct6 (pairwise_linspace hN)).filter _

/-- C3 witness: the theorem instantiated at the boundary resolution N = 2. -/
theorem compositionGrid_eq_lex_product_filter_witness :
    2 ≤ 2 ∧
    (compositionGrid (linspace 2) 2 =
      ((cartesianProduct6 (linspace 2)).filter fun t => decide (sum6 t = 1)) ∧
    (compositionGrid (linspace 2) 2).Pairwise lex6) :=
  ⟨le_refl 2, compositionGrid_eq_lex_product_filter 2 (le_refl 2)⟩

theorem trapezoid_cons_cons {K : Type} [Field K] (y1 y2 x1 x2 : K) (ys xs : List K) :
    trapezoid (y1 :: y2 :: ys) (x1 :: x2 :: xs) =
      (x2 - x1) * (y1 + y2) / 2 + trapezoid (y2 :: ys) (x2 :: xs) := by
  rw [trapezoid]

theorem trapezoid_map_div {K : Type} [Field K] (c : K) :
    ∀ ys xs : List K, trapezoid (ys.map fun y => y / c) xs = trapezoid ys xs / c
  | [], xs => by simp [trapezoid]
  | [y], xs => by simp [trapezoid]
  | y1 :: y2 :: ys, [] => by simp [trapezoid]
  | y1 :: y2 :: ys, [x] => by simp [trapezoid]
  | y1 :: y2 :: ys, x1 :: x2 :: xs => by
    have ih := trapezoid_map_div c (y2 :: ys) (x2 :: xs)
    simp only [List.map_cons] at ih ⊢
    rw [trapezoid_cons_cons, trapezoid_cons_cons, ih]
    ring

/-- C6: dividing the regression values by their trapezoidal integral
yields a spectrum whose trapezoidal integral over the same wavelength
grid is exactly 1, provided the pre-normalization integral is non-zero. -/
theorem normalized_spectrum_integral_one {K : Type} [Field K] (ys xs : List K)
    (h : trapezoid ys xs ≠ 0) : trapezoid (normal_spectrum ys xs) xs = 1 := by
  rw [normal_spectrum, trapezoid_map_div, div_self h]

/-- C6 witness: constant samples [1, 1] on the grid [0, 2] have integral
2, and the normalized spectrum integrates to 1. -/
theorem normalized_spectrum_integral_one_witness :
    trapezoid ([1, 1] : List ℚ) [0, 2] ≠ 0 ∧
    trapezoid (normal_spectrum ([1, 1] : List ℚ) [0, 2]) [0, 2] = 1 := by
  have h : trapezoid ([1, 1] : List ℚ) [0, 2] ≠ 0 := by
    rw [trapezoid_cons_cons]
    norm_num [trapezoid]
  exact ⟨h, normalized_spectrum_integral_one [1, 1] [0, 2] h⟩

/-- C7: the response evaluator F returns one value per wavelength-indexed
interpolant, and the value at index i is 1 - 10 ^ (-a) where a is the
absorbance predicted by that index's interpolant at the composition. -/
theorem F_length_and_elementwise_LHE (RBF : List Interpolant) (I1 I2 I3 I4 I5 I6 : ℝ)
    (i : Nat) :
    (F RBF I1 I2 I3 I4 I5 I6).length = RBF.length ∧
    (F RBF I1 I2 I3 I4 I5 I6)[i]? =
      (RBF[i]?).map fun rbf => 1 - (10 : ℝ) ^ (-(rbf I1 I2 I3 I4 I5 I6)) := by
  constructor
  · rw [F, List.length_map]
  · rw [F, List.getElem?_map]

/-- C8: the response evaluator is deterministic: two calls with the same
interpolant list and the same six fraction arguments return identical
LHE spectra (the embedded F is a pure function of these inputs, as the
code's F reads only state that is immutable after the initial fit). -/
theorem F_deterministic (RBF RBF2 : List Interpolant)
    (a1 a2 a3 a4 a5 a6 b1 b2 b3 b4 b5 b6 : ℝ) (hR : RBF = RBF2)
    (h1 : a1 = b1) (h2 : a2 = b2) (h3 : a3 = b3) (h4 : a4 = b4)
    (h5 : a5 = b5) (h6 : a6 = b6) :
    F RBF a1 a2 a3 a4 a5 a6 = F RBF2 b1 b2 b3 b4 b5 b6 := by
  rw [hR, h1, h2, h3, h4, h5, h6]

/-- C8 witness: two textually separate calls at a concrete one-element
interpolant list and concrete fractions coincide. -/
theorem F_deterministic_witness :
    ([fun a _ _ _ _ _ => a] : List Interpolant) = [fun a _ _ _ _ _ => a] ∧ (0 : ℝ) = 0 ∧
    F [fun a _ _ _ _ _ => a] 0 0 0 0 0 0 = F [fun a _ _ _ _ _ => a] 0 0 0 0 0 0 :=
  ⟨rfl, rfl, F_deterministic _ _ 0 0 0 0 0 0 0 0 0 0 0 0 rfl rfl rfl rfl rfl rfl rfl⟩

theorem sum_map_mul (c : ℝ) (l : List ℝ) : (l.map fun x => c * x).sum = c * l.sum := by
  induction l with
  | nil => simp
  | cons a l ih =>
    simp only [List.map_cons, List.sum_cons, ih]
    ring

theorem mean_map_mul (c : ℝ) (l : List ℝ) : mean (l.map fun x => c * x) = c * mean l := by
  rw [mean, mean, List.length_map, sum_map_mul, mul_div_assoc]

theorem centered_map_mul (c : ℝ) (l : List ℝ) :
    centered (l.map fun x => c * x) = (centered l).map fun x => c * x := by
  simp only [centered, List.map_map, mean_map_mul]
  congr 1
  funext x
  simp only [Function.comp_apply]
  ring

theorem zipWith_mul_map_left (c : ℝ) :
    ∀ a b : List ℝ,
      (List.zipWith (· * ·) (a.map fun x => c * x) b).sum = c * (List.zipWith (· * ·) a b).sum
  | [], _ => by simp
  | _ :: _, [] => by simp
  | a :: as, b :: bs => by
    simp only [List.map_cons, List.zipWith_cons_cons, List.sum_cons,
      zipWith_mul_map_left c as bs]
    ring

theorem zipWith_mul_map_right (c : ℝ) :
    ∀ a b : List ℝ,
      (List.zipWith (· * ·) a (b.map fun x => c * x)).sum = c * (List.zipWith (· * ·) a b).sum
  | [], _ => by simp
  | _ :: _, [] => by simp
  | a :: as, b :: bs => by
    simp only [List.map_cons, List.zipWith_cons_cons, List.sum_cons,
      zipWith_mul_map_right c as bs]
    ring

theorem covSum_map_left (c : ℝ) (x y : List ℝ) :
    covSum (x.map fun t => c * t) y = c * covSum x y := by
  rw [covSum, covSum, centered_map_mul, zipWith_mul_map_left]

theorem covSum_map_right (c : ℝ) (x y : List ℝ) :
    covSum x (y.map fun t => c * t) = c * covSum x y := by
  rw [covSum, covSum, centered_map_mul, zipWith_mul_map_right]

theorem pearson_map_left {c : ℝ} (hc : 0 < c) (x y : List ℝ) :
    pearson (x.map fun t => c * t) y = pearson x y := by
  rw [pearson, pearson, covSum_map_left, covSum_map_left, covSum_map_right]
  rw [show c * (c * covSum x x) * covSum y y = c ^ 2 * (covSum x x * covSum y y) by ring]
  rw [Real.sqrt_mul (by positivity) (covSum x x * covSum y y), Real.sqrt_sq hc.le]
  exact mul_div_mul_left _ _ (ne_of_gt hc)

/-- C10: the Pearson correlation score the loop computes against the raw
regression values equals the Pearson correlation against the normalized
reference spectrum whenever the normalizing integral is positive, since
Pearson correlation is invariant under positive scaling of one argument. -/
theorem pearson_invariant_under_normalization (regVals ws lhe : List ℝ)
    (h : 0 < trapezoid regVals ws) :
    pearson (normal_spectrum regVals ws) lhe = pearson regVals lhe := by
  have hmap : normal_spectrum regVals ws =
      regVals.map fun t => (trapezoid regVals ws)⁻¹ * t := by
    rw [normal_spectrum]
    congr 1
    funext y
    rw [div_eq_mul_inv, mul_comm]
  rw [hmap]
  exact pearson_map_left (inv_pos.mpr h) regVals lhe

/-- C10 witness: concrete spectrum [1, 1] over the grid [0, 2] has
positive integral 2, and both correlations against the empty sequence
coincide. -/
theorem pearson_invariant_under_normalization_witness :
    0 < trapezoid ([1, 1] : List ℝ) [0, 2] ∧
    pearson (normal_spectrum ([1, 1] : List ℝ) [0, 2]) [] = pearson [1, 1] [] := by
  have h : 0 < trapezoid ([1, 1] : List ℝ) [0, 2] := by
    rw [trapezoid_cons_cons]
    norm_num [trapezoid]
  exact ⟨h, pearson_invariant_under_normalization [1, 1] [0, 2] [] h⟩

theorem npCov_off_diag (x y : List ℝ) : npCov x y 0 1 = sampleCov x y := rfl

/-- C1 (amended): the covariance score appended for each composition is
the off-diagonal entry of the 2x2 sample covariance matrix of the RAW
(unnormalized) regression values and the LHE spectrum of that
composition. -/
theorem covariance_score_uses_raw_spectrum {α : Type} (regVals : List ℝ)
    (lheOf : α → List ℝ) (comps : List α) (i : Nat) :
    (covarianceSeq regVals lheOf comps)[i]? =
      (comps[i]?).map fun f => npCov regVals (lheOf f) 0 1 := by
  rw [covarianceSeq, List.getElem?_map]

/-- C1 counterexample: with regression values [1, 3] over the wavelength
grid [0, 1] (integral 2, so normalization halves the values) and an LHE
spectrum [0, 1], the covariance score the loop appends is 1, while the
off-diagonal sample covariance of the NORMALIZED spectrum with the same
LHE spectrum is 1/2, so the claim as stated fails. -/
theorem covariance_normalized_score_mismatch :
    (covarianceSeq [1, 3] (fun _ : Unit => [0, 1]) [()]).getD 0 0 ≠
      npCov (normal_spectrum ([1, 3] : List ℝ) [0, 1]) [0, 1] 0 1 := by
  have hl : (covarianceSeq [1, 3] (fun _ : Unit => [0, 1]) [()]).getD 0 0 =
      npCov ([1, 3] : List ℝ) [0, 1] 0 1 := rfl
  have htrap : trapezoid ([1, 3] : List ℝ) [0, 1] = 2 := by
    rw [trapezoid_cons_cons]
    norm_num [trapezoid]
  have hns : normal_spectrum ([1, 3] : List ℝ) [0, 1] = [1 / 2, 3 / 2] := by
    rw [normal_spectrum, htrap]
    norm_num
  have h1 : npCov ([1, 3] : List ℝ) [0, 1] 0 1 = 1 := by
    rw [npCov_off_diag, sampleCov, covSum]
    simp only [centered, mean, List.sum_cons, List.sum_nil, List.length_cons,
      List.length_nil, List.map_cons, List.map_nil, List.zipWith_cons_cons,
      List.zipWith_nil_right]
    norm_num
  have h2 : npCov (normal_spectrum ([1, 3] : List ℝ) [0, 1]) [0, 1] 0 1 = 1 / 2 := by
    rw [hns, npCov_off_diag, sampleCov, covSum]
    simp only [centered, mean, List.sum_cons, List.sum_nil, List.length_cons,
      List.length_nil, List.map_cons, List.map_nil, List.zipWith_cons_cons,
      List.zipWith_nil_right]
    norm_num
  rw [hl, h1, h2]
  norm_num

theorem selection_never_reports_ties {α : Type} [LinearOrder α] (scores : List α)
    (idxs : List (List Nat)) :
    selection scores ≠ SelectionResult.reportedTies idxs := by
  cases hm : pyMax scores with
  | none => simp [selection, hm]
  | some m =>
    cases hp : pyInt (argmaxIndices scores m) with
    | none => simp [selection, hm, hp]
    | some i => simp [selection, hm, hp]

/-- C2: the tie check compares the length of list(np.where(...)), which
is always the one-element list holding the single index array, so the
multiple-best-fits branch can never fire for any metric sequence; on the
concrete tied sequence [1, 1] both indices 0 and 1 attain the maximum,
yet the outcome is the error path (int() applied to a two-element index
array raises TypeError) instead of a distinct report of the tie. -/
theorem tie_detection_never_fires :
    (∀ (scores : List ℚ) (idxs : List (List Nat)),
        selection scores ≠ SelectionResult.reportedTies idxs) ∧
    argmaxIndices [(1 : ℚ), 1] 1 = [0, 1] ∧
    selection [(1 : ℚ), 1] = SelectionResult.error := by
  refine ⟨fun scores idxs => selection_never_reports_ties scores idxs, ?_, ?_⟩
  · decide
  · decide

/-- C9: on an empty composition grid the three metric loops silently
produce empty score sequences and the answer block then fails (python
max raises ValueError on an empty sequence) — there is no explicit
detection or report of the degenerate grid anywhere in the pipeline. -/
theorem empty_grid_silent_empty_sequences {α : Type} (regVals ws : List ℝ)
    (lheOf : α → List ℝ) :
    correlationSeq regVals lheOf ([] : List α) = [] ∧
    integralSeq ws lheOf ([] : List α) = [] ∧
    covarianceSeq regVals lheOf ([] : List α) = [] ∧
    selection ([] : List ℝ) = SelectionResult.error :=
  ⟨rfl, rfl, rfl, rfl⟩

end DSSC
